import Mathlib

/-
  Verification of the strongsalt-common-go block-list and header framing
  library (package blocks, package headers, package tools).

  The Go code is shallowly embedded: byte slices become `List Nat`
  (each element a byte value), Go `uint32` arithmetic becomes `Nat`
  arithmetic reduced modulo `W = 2^32` exactly where the Go code wraps,
  fallible functions return `Except` or a dedicated result inductive, and a
  Go runtime panic (slice bounds out of range) is modelled as an explicit
  `panic` constructor so that it is distinguishable from an ordinary
  returned error.
-/

namespace StrongSalt

/-- Modulus of Go `uint32` arithmetic. -/
def W : Nat := 4294967296

/-- Length of the 4-byte block id field (`blockNumLen` in blocks.go). -/
def blockNumLen : Nat := 4

/-- Length of the 4-byte block size field (`blockSizeLen` in blocks.go). -/
def blockSizeLen : Nat := 4

/-- Length of the fixed block header (`blockHeaderLen` in blocks.go). -/
def blockHeaderLen : Nat := blockNumLen + blockSizeLen

/-- Big-endian 4-byte encoding of a `uint32` value, as written by
`binary.BigEndian.PutUint32`.  The argument is expected to be `< W`. -/
def u32be (n : Nat) : List Nat :=
  [n / 16777216 % 256, n / 65536 % 256, n / 256 % 256, n % 256]

/-- Big-endian 4-byte read at offset `i`, as performed by
`binary.BigEndian.Uint32(b[i:])`.  Out-of-range positions read 0; the Go
code only ever calls this with at least 4 bytes available. -/
def be32At (b : List Nat) (i : Nat) : Nat :=
  b.getD i 0 * 16777216 + b.getD (i + 1) 0 * 65536 + b.getD (i + 2) 0 * 256 + b.getD (i + 3) 0

/-- A V1 block (`blockV1` in blocks.go): `id` and `size` are `uint32`
fields, `data` is the payload byte slice. -/
structure blockV1 where
  id : Nat
  size : Nat
  data : List Nat
deriving DecidableEq, Repr

/-- The payload of a `BlockPaddingError` built by `NewBlockPaddingError`:
the configured padded block size, the offending total block size and the
maximum data size, all `uint32` values. -/
structure BlockPaddingError where
  PaddedBlockSize : Nat
  BlockSize : Nat
  MaxDataSize : Nat
deriving DecidableEq, Repr

/-- `blockV1.Serialize` from blocks.go.  `pad` supplies the
cryptographically random padding bytes (`rand.Read`); the serialized
layout is `id(4) ++ size(4) ++ data ++ padding`.  All `uint32`
computations wrap modulo `W` exactly as in Go. -/
def blockV1.Serialize (b : blockV1) (paddedBlockSize : Nat) (pad : Nat → Nat) :
    Except BlockPaddingError (List Nat) :=
  let blockSize := b.data.length % W
  let totalSize := (blockHeaderLen + blockSize) % W
  let arrayBytes := if 0 < paddedBlockSize then paddedBlockSize else totalSize
  if 0 < paddedBlockSize ∧ paddedBlockSize < totalSize then
    Except.error ⟨paddedBlockSize, totalSize, (paddedBlockSize + (W - 8)) % W⟩
  else
    Except.ok ((u32be (b.id % W) ++ u32be blockSize ++ b.data).take arrayBytes ++
      (if 0 < paddedBlockSize then (List.range (arrayBytes - totalSize)).map pad else []))

/-- Result of `blockV1.deserialize`: a successfully parsed block, a
returned error, or a Go runtime panic (slice bounds out of range). -/
inductive BlockDeserResult where
  | ok (b : blockV1)
  | err
  | panic
deriving DecidableEq, Repr

/-- `DeserializeBlockV1` / `blockV1.deserialize` from blocks.go.
`totalSize := uint32(len(dataBytes))`; the size check
`b.size+blockHeaderLen > totalSize` is carried out in wrapping `uint32`
arithmetic, and the subsequent slice
`dataBytes[blockHeaderLen : blockHeaderLen+b.size]` panics when the
wrapped upper bound falls below `blockHeaderLen` or beyond the slice. -/
def DeserializeBlockV1 (paddedBlockSize : Nat) (dataBytes : List Nat) : BlockDeserResult :=
  let totalSize := dataBytes.length % W
  if totalSize < blockHeaderLen then .err
  else if 0 < paddedBlockSize ∧ totalSize ≠ paddedBlockSize then .err
  else
    let id := be32At dataBytes 0
    let size := be32At dataBytes blockNumLen
    if totalSize < (size + blockHeaderLen) % W then .err
    else if (blockHeaderLen + size) % W < blockHeaderLen ∨
        dataBytes.length < (blockHeaderLen + size) % W then .panic
    else .ok ⟨id, size, (dataBytes.drop blockHeaderLen).take size⟩

/-- `HeaderType.IsGzipped` from headers.go: the gzipped body types are
`HeaderTypeJSONGzip = 2` and `HeaderTypeBSONGzip = 4`. -/
def IsGzipped (t : Nat) : Bool := t == 2 || t == 4

/-- `PlainHdrV1` from plaintextV1.go: `Version`, `HdrType` and `HdrLen`
are 32-bit fields, `HdrBody` is the body byte slice. -/
structure PlainHdrV1 where
  Version : Nat
  HdrType : Nat
  HdrLen : Nat
  HdrBody : List Nat
deriving DecidableEq, Repr

/-- Result of the byte-buffer header deserializers: `incomplete` is
`complete=false, err=nil` (need more bytes), `ok` carries `parsedBytes`
and the header, `err` is a returned error, `panic` is a Go runtime panic
(slice bounds out of range). -/
inductive PlainHdrDeserResult where
  | incomplete
  | ok (parsedBytes : Nat) (h : PlainHdrV1)
  | err
  | panic
deriving DecidableEq, Repr

/-- `PlainHdrV1.Serialize` from plaintextV1.go.  `gz` is the gzip codec
(`tools.Gzip`), applied when the body type is a gzipped variant.  Layout:
`version(4) ++ hdrtype(4) ++ hdrlen(4) ++ body`. -/
def PlainHdrV1.Serialize (gz : List Nat → List Nat) (h : PlainHdrV1) : List Nat :=
  let body := if IsGzipped h.HdrType then gz h.HdrBody else h.HdrBody
  u32be (h.Version % W) ++ (u32be (h.HdrType % W) ++ (u32be (body.length % W) ++ body))

/-- `PlainHdrV1.deserialize` from plaintextV1.go.  `gunz` is the gunzip
codec (`tools.Gunzip`).  `parsedBytes` is accumulated in `uint32`
arithmetic; the body slice `b[parsedBytes : parsedBytes+h.HdrLen]` panics
when the wrapped upper bound falls below 12 or beyond the slice. -/
def PlainHdrV1.deserialize (gunz : List Nat → Except Unit (List Nat)) (b : List Nat) :
    PlainHdrDeserResult :=
  if b.length < 12 then .incomplete
  else
    let version := be32At b 0
    let hdrType := be32At b 4
    let hdrLen := be32At b 8
    if b.length % W < (12 + hdrLen) % W then .incomplete
    else if (12 + hdrLen) % W < 12 ∨ b.length < (12 + hdrLen) % W then .panic
    else
      let hdrBody := (b.drop 12).take ((12 + hdrLen) % W - 12)
      if IsGzipped hdrType then
        match gunz hdrBody with
        | Except.error _ => .err
        | Except.ok body => .ok ((12 + hdrLen) % W) ⟨version, hdrType, body.length % W, body⟩
      else .ok ((12 + hdrLen) % W) ⟨version, hdrType, hdrLen, hdrBody⟩

/-- The ciphertext sentinel `CipherHdrV1Prime` from ciphertextV1.go. -/
def CipherHdrV1Prime : Nat := 1879785779

/-- `CipherHdrV1` from ciphertextV1.go. -/
structure CipherHdrV1 where
  Version : Nat
  Prime : Nat
  HdrType : Nat
  HdrLen : Nat
  HdrBody : List Nat
deriving DecidableEq, Repr

/-- Result of `CipherHdrV1.deserialize`. -/
inductive CipherHdrDeserResult where
  | incomplete
  | ok (parsedBytes : Nat) (h : CipherHdrV1)
  | err
  | panic
deriving DecidableEq, Repr

/-- `CipherHdrV1.deserialize` from ciphertextV1.go: as the plaintext
variant, with the 4-byte prime sentinel between `version` and `hdrtype`
and a 16-byte fixed prefix. -/
def CipherHdrV1.deserialize (gunz : List Nat → Except Unit (List Nat)) (b : List Nat) :
    CipherHdrDeserResult :=
  if b.length < 16 then .incomplete
  else
    let version := be32At b 0
    let prime := be32At b 4
    if prime ≠ CipherHdrV1Prime then .err
    else
      let hdrType := be32At b 8
      let hdrLen := be32At b 12
      if b.length % W < (16 + hdrLen) % W then .incomplete
      else if (16 + hdrLen) % W < 16 ∨ b.length < (16 + hdrLen) % W then .panic
      else
        let hdrBody := (b.drop 16).take ((16 + hdrLen) % W - 16)
        if IsGzipped hdrType then
          match gunz hdrBody with
          | Except.error _ => .err
          | Except.ok body => .ok ((16 + hdrLen) % W) ⟨version, prime, hdrType, body.length % W, body⟩
        else .ok ((16 + hdrLen) % W) ⟨version, prime, hdrType, hdrLen, hdrBody⟩

/-- Runtime capabilities of a backing store, as probed by the Go type
assertions `store.(io.Reader)`, `store.(io.ReaderAt)`, `store.(io.Seeker)`. -/
structure StoreCaps where
  hasReader : Bool
  hasReaderAt : Bool
  hasSeeker : Bool
deriving DecidableEq, Repr

/-- The reader-relevant state of `blockListV1` from blocks.go after
construction: the list header fields, whether the seeker capability was
captured, and the offsets.  `hasSeeker` models `b.seeker != nil`. -/
structure blockListV1 where
  version : Nat
  paddedBlockSize : Nat
  hasSeeker : Bool
  initOffset : Nat
  curOffset : Nat
  endOffset : Nat
deriving DecidableEq, Repr

/-- `NewBlockListReaderV1` from blocks.go.  `stream` is the byte stream
the sequential reader yields from `initOffset` on; the constructor reads
the 4-byte version and the 4-byte padded block size, requires `io.Reader`
and `io.Seeker` up front, and requires `io.ReaderAt` and `endOffset > 0`
only when the on-disk header declares padded mode. -/
def NewBlockListReaderV1 (caps : StoreCaps) (stream : List Nat) (initOffset endOffset : Nat) :
    Except String blockListV1 :=
  if ¬ caps.hasReader then Except.error "The storage must implement io.Reader"
  else if ¬ caps.hasSeeker then Except.error "The storage must implement io.Seeker"
  else if stream.length < 4 then Except.error "Can not read version data from storage"
  else
    let version := be32At stream 0
    if stream.length < 8 then Except.error "Can not read padded block size data from storage"
    else
      let paddedBlockSize := be32At stream 4
      if 0 < paddedBlockSize ∧ ¬ caps.hasReaderAt then
        Except.error "A padded block list requires the storage to implement io.ReaderAt"
      else if 0 < paddedBlockSize ∧ endOffset < 1 then
        Except.error "A padded block list requires an endOffset greater than 0"
      else
        Except.ok ⟨version, paddedBlockSize, caps.hasSeeker, initOffset + 8, initOffset + 8,
          endOffset⟩

/-- `blockListV1.Reset` from blocks.go: with a seeker it repositions to
`initOffset` and clears the current block; without one it fails. -/
def blockListV1.Reset (b : blockListV1) : Except String blockListV1 :=
  if b.hasSeeker then
    Except.ok ⟨b.version, b.paddedBlockSize, b.hasSeeker, b.initOffset, b.initOffset, b.endOffset⟩
  else Except.error "Seeker interface not implemented. Can not reset"

/-- A write operation performed against the block list writer:
`dataBytes` is `writeBlockDataBytes` (also the tail of `WriteBlockData`),
which builds a fresh block with id 0 before the id-chain assignment;
`block bid` is `writeBlock`/`WriteBlock` called directly with a
caller-supplied block whose id field is `bid`. -/
inductive WriteOp where
  | dataBytes
  | block (bid : Nat)
deriving DecidableEq, Repr

/-- The id-assignment in `blockListV1.writeBlock` from blocks.go: with a
current block, the written id is the predecessor id plus one in `uint32`
arithmetic; with no current block, the passed block keeps its own id. -/
def writeBlockId (cur : Option Nat) (blockId : Nat) : Nat :=
  match cur with
  | none => blockId
  | some prev => (prev + 1) % W

/-- The id written by one operation: `writeBlockDataBytes` starts from a
block with id 0 (so a fresh list starts at 0), `writeBlock` keeps the
caller's id when there is no current block. -/
def writeOpId (cur : Option Nat) : WriteOp → Nat
  | WriteOp.dataBytes => writeBlockId cur 0
  | WriteOp.block bid => writeBlockId cur bid

/-- The ids written by a sequence of successful writes, threading the
current-block pointer exactly as `blockListV1.writeBlock` updates it. -/
def runWrites : List WriteOp → Option Nat → List Nat
  | [], _ => []
  | op :: ops, cur =>
    let bid := writeOpId cur op
    bid :: runWrites ops (some bid)

/-- Result of `ReadNextBlockData`/`ReadBlockDataAt`: a record with its
uncompressed byte length, a returned error message, or a panic
propagated from block deserialization. -/
inductive ReadDataResult (α : Type) where
  | ok (a : α) (jsonSize : Nat)
  | err (msg : String)
  | panic

/-- The id-chain check of `blockListV1.readNextBlock`: the decoded id
must be the current block's id plus one when a current block exists. -/
def idChainOk (cur : Option Nat) (newId : Nat) : Bool :=
  match cur with
  | none => true
  | some prev => newId == (prev + 1) % W

/-- `blockListV1.ReadNextBlockData` from blocks.go, applied to the bytes
of the next block: `readNextBlock` decodes and id-checks the block, then
the data is rejected with "invalid blockData" when empty, and otherwise
handed to `deserializeBlockData` (abstracted as `deserData`, returning
the record and the uncompressed length). -/
def ReadNextBlockData {α : Type} (paddedBlockSize : Nat) (cur : Option Nat)
    (blockBytes : List Nat) (deserData : List Nat → Except Unit (α × Nat)) :
    ReadDataResult α :=
  match DeserializeBlockV1 paddedBlockSize blockBytes with
  | .err => .err "block deserialization failed"
  | .panic => .panic
  | .ok blk =>
    if ¬ idChainOk cur blk.id then
      .err "The next block ID does not immediately follow the previous block ID"
    else if blk.data.length = 0 then .err "invalid blockData"
    else
      match deserData blk.data with
      | Except.error _ => .err "block data deserialization failed"
      | Except.ok (a, jsonSize) => .ok a jsonSize

/-- `blockListV1.ReadBlockDataAt` from blocks.go, applied to the bytes
read at the requested index: random access requires padded mode, the
decoded id must equal the index, then the same empty-data check and data
decode as `ReadNextBlockData`. -/
def ReadBlockDataAt {α : Type} (paddedBlockSize : Nat) (index : Nat)
    (blockBytes : List Nat) (deserData : List Nat → Except Unit (α × Nat)) :
    ReadDataResult α :=
  if ¬ 0 < paddedBlockSize then
    .err "The block list does not have padded fixed sized blocks"
  else
    match DeserializeBlockV1 paddedBlockSize blockBytes with
    | .err => .err "block deserialization failed"
    | .panic => .panic
    | .ok blk =>
      if ¬ blk.id == index then .err "Block ID does not match the retrieval index"
      else if blk.data.length = 0 then .err "invalid blockData"
      else
        match deserData blk.data with
        | Except.error _ => .err "block data deserialization failed"
        | Except.ok (a, jsonSize) => .ok a jsonSize

/-- The mid computation of `blockListV1.SearchBinary`:
`mid := (left + right) / 2` in `uint32` arithmetic. -/
def sbMid (left right : Nat) : Nat := ((left + right) % W) / 2

/-- The starting right bound of `blockListV1.SearchBinary`:
`right := GetTotalBlocks(); right--` in `uint32` arithmetic (so an empty
list wraps to `2^32 - 1`). -/
def SearchBinaryInitRight (totalBlocks : Nat) : Nat := (totalBlocks + (W - 1)) % W

/-- One iteration of the `for true` loop of `blockListV1.SearchBinary`
from blocks.go, abstracted over the comparator outcome `c mid` for the
record stored in block `mid`.  `Sum.inr` terminates the search (with the
hit index or not-found), `Sum.inl` is the next `(left, right)` state.
All arithmetic wraps modulo `W` as in Go. -/
def SearchBinaryStep (c : Nat → Int) (left right : Nat) : (Nat × Nat) ⊕ (Option Nat) :=
  let mid := sbMid left right
  if c mid = 1 then Sum.inr (some mid)
  else if c mid = 0 then Sum.inr none
  else if left = right then Sum.inr none
  else if c mid < 0 then
    Sum.inl (left, if left < mid then (mid + (W - 1)) % W else left)
  else
    Sum.inl ((if mid < right then (mid + 1) % W else right), right)

/-- Fuelled iteration of `SearchBinaryStep`, also counting block reads
(each iteration performs exactly one `ReadBlockDataAt`).  `none` means
the loop has not terminated within `fuel` iterations, hence performs
more than `fuel` block reads. -/
def SearchBinaryRun (c : Nat → Int) : Nat → Nat → Nat → Option (Option Nat × Nat)
  | 0, _, _ => none
  | fuel + 1, left, right =>
    match SearchBinaryStep c left right with
    | Sum.inr res => some (res, 1)
    | Sum.inl (l2, r2) =>
      match SearchBinaryRun c fuel l2 r2 with
      | none => none
      | some (res, reads) => some (res, reads + 1)

/-- `blockListV1.SearchBinary` from blocks.go over a padded list of
`totalBlocks` blocks, starting from `left = 0`,
`right = totalBlocks - 1`. -/
def SearchBinary (c : Nat → Int) (totalBlocks fuel : Nat) : Option (Option Nat × Nat) :=
  SearchBinaryRun c fuel 0 (SearchBinaryInitRight totalBlocks)

/-- The scan loop of `blockListV1.SearchLinear` from blocks.go: after a
`Reset`, blocks `i, i+1, ...` are read sequentially until the comparator
returns 1 (hit) or the stream ends after `fuel` further blocks. -/
def SearchLinearLoop (c : Nat → Int) : Nat → Nat → Option Nat
  | _, 0 => none
  | i, fuel + 1 => if c i = 1 then some i else SearchLinearLoop c (i + 1) fuel

/-- `blockListV1.SearchLinear` from blocks.go over a list of
`totalBlocks` blocks. -/
def SearchLinear (c : Nat → Int) (totalBlocks : Nat) : Option Nat :=
  SearchLinearLoop c 0 totalBlocks

/-- The comparator contract of §4.2/§4.3: the blocks are ordered and
contiguous within their span and the searched value is in range, so there
is a unique block `p` the value belongs to: the comparator answers `>1`
(here: `≥ 2`) on every earlier block, `<0` on every later block, and `1`
(present) or `0` (absent) on block `p` itself. -/
def ComparatorContract (c : Nat → Int) (n p : Nat) : Prop :=
  p < n ∧ (∀ i, i < p → 2 ≤ c i) ∧ (∀ i, p < i → i < n → c i < 0) ∧ (c p = 0 ∨ c p = 1)

/-- A three-block demonstration list: the value sits in block 1. -/
def demoCmp : Nat → Int := fun i => if i = 1 then 1 else if i < 1 then 2 else -1

/-- The list exhibiting the `uint32` wrap of `mid := (left + right) / 2`:
`n = 3 · 2^30` blocks, the searched value sits in the last block. -/
def bigCmp : Nat → Int := fun i => if i = 3221225471 then 1 else 2

/-- The transition of one `SearchBinary` iteration exactly as the
specification states it: read block `mid = (left + right) / 2`; a
comparator answer of 1 returns that record; 0 terminates with not-found;
if `left == right` after a miss the search terminates with not-found; a
negative answer sets `right = mid - 1` unless `mid == left` (then
`right = left`); an answer above 1 sets `left = mid + 1` unless
`mid == right` (then `left = right`). -/
def SearchBinarySpecStep (c : Nat → Int) (left right : Nat) : (Nat × Nat) ⊕ (Option Nat) :=
  let mid := (left + right) / 2
  if c mid = 1 then Sum.inr (some mid)
  else if c mid = 0 then Sum.inr none
  else if left = right then Sum.inr none
  else if c mid < 0 then
    Sum.inl (left, if mid = left then left else mid - 1)
  else
    Sum.inl ((if mid = right then right else mid + 1), right)

theorem u32be_length (n : Nat) : (u32be n).length = 4 := rfl

theorem be32At_cons4 (a b c d : Nat) (rest : List Nat) :
    be32At (a :: b :: c :: d :: rest) 0 = a * 16777216 + b * 65536 + c * 256 + d := rfl

theorem be32At_shift4 (a b c d : Nat) (rest : List Nat) (i : Nat) :
    be32At (a :: b :: c :: d :: rest) (i + 4) = be32At rest i := by
  simp only [be32At]
  have h1 : i + 4 + 1 = i + 1 + 4 := by omega
  have h2 : i + 4 + 2 = i + 2 + 4 := by omega
  have h3 : i + 4 + 3 = i + 3 + 4 := by omega
  rw [h1, h2, h3]
  have hg : ∀ j : Nat, (a :: b :: c :: d :: rest).getD (j + 4) 0 = rest.getD j 0 := by
    intro j
    rfl
  rw [hg, hg, hg, hg]

theorem be32At_u32be (n : Nat) (rest : List Nat) (h : n < W) :
    be32At (u32be n ++ rest) 0 = n := by
  have hW : W = 4294967296 := rfl
  simp only [u32be, List.cons_append, List.nil_append, be32At_cons4]
  omega

theorem u32be_append (n : Nat) (rest : List Nat) :
    u32be n ++ rest = n / 16777216 % 256 :: n / 65536 % 256 :: n / 256 % 256 :: n % 256 :: rest :=
  rfl

theorem blockHeaderLen_eq : blockHeaderLen = 8 := rfl

theorem drop_eight (n m : Nat) (rest : List Nat) :
    (u32be n ++ u32be m ++ rest).drop 8 = rest := rfl

theorem length_u32be2 (n m : Nat) (rest : List Nat) :
    (u32be n ++ u32be m ++ rest).length = 8 + rest.length := by
  simp [u32be]
  omega

theorem blockNumLen_eq : blockNumLen = 4 := rfl

/-- Deserializing a well-formed frame `id(4) ++ size(4) ++ data ++ rest`
succeeds and recovers `id`, `size = len(data)` and `data`. -/
theorem DeserializeBlockV1_frame (paddedBlockSize id : Nat) (data rest : List Nat)
    (hid : id < W) (hlen : 8 + data.length + rest.length < W)
    (hpad : 0 < paddedBlockSize → 8 + data.length + rest.length = paddedBlockSize) :
    DeserializeBlockV1 paddedBlockSize (u32be id ++ u32be data.length ++ (data ++ rest)) =
      .ok ⟨id, data.length, data⟩ := by
  have hW : W = 4294967296 := rfl
  have hlen2 : (u32be id ++ u32be data.length ++ (data ++ rest)).length =
      8 + (data.length + rest.length) := by
    rw [length_u32be2]
    simp
  have hdlW : data.length < W := by omega
  have hid0 : be32At (u32be id ++ u32be data.length ++ (data ++ rest)) 0 = id := by
    rw [List.append_assoc]
    exact be32At_u32be id _ hid
  have hsz : be32At (u32be id ++ u32be data.length ++ (data ++ rest)) 4 = data.length := by
    rw [List.append_assoc, u32be_append, show (4 : Nat) = 0 + 4 by rfl, be32At_shift4]
    exact be32At_u32be data.length _ hdlW
  have hdata : ((u32be id ++ u32be data.length ++ (data ++ rest)).drop 8).take
      data.length = data := by
    rw [drop_eight]
    exact List.take_left data rest
  rw [hW] at hlen
  unfold DeserializeBlockV1
  simp only [blockHeaderLen_eq, blockNumLen_eq, W, hlen2, hid0, hsz, hdata]
  have hmod : (8 + (data.length + rest.length)) % 4294967296 = 8 + (data.length + rest.length) := by
    omega
  rw [hmod]
  rw [if_neg (by omega)]
  rw [if_neg (show ¬ (0 < paddedBlockSize ∧ 8 + (data.length + rest.length) ≠ paddedBlockSize) by
    rintro ⟨h1, h2⟩
    have := hpad h1
    omega)]
  have hmod2 : (data.length + 8) % 4294967296 = data.length + 8 := by omega
  have hmod3 : (8 + data.length) % 4294967296 = 8 + data.length := by omega
  rw [hmod2, hmod3]
  rw [if_neg (by omega), if_neg (by omega)]

/-- In the non-violating regime `blockV1.Serialize` succeeds and produces
the frame `id(4) ++ size(4) ++ data ++ padding`, with padding present only
in padded mode. -/
theorem blockV1_Serialize_ok (bid sz : Nat) (data : List Nat) (p : Nat) (pad : Nat → Nat)
    (hid : bid < W) (hlen : 8 + data.length < W) (hfit : p = 0 ∨ 8 + data.length ≤ p) :
    blockV1.Serialize ⟨bid, sz, data⟩ p pad =
      Except.ok (u32be bid ++ u32be data.length ++
        (data ++ (if 0 < p then (List.range (p - (8 + data.length))).map pad else []))) := by
  have hW : W = 4294967296 := rfl
  rw [hW] at hid hlen
  unfold blockV1.Serialize
  simp only [blockHeaderLen_eq, hW]
  have hmodid : bid % 4294967296 = bid := by omega
  have hmodlen : data.length % 4294967296 = data.length := by omega
  rw [hmodid, hmodlen]
  have hmodtot : (8 + data.length) % 4294967296 = 8 + data.length := by omega
  rw [hmodtot]
  have hguard : ¬ (0 < p ∧ p < 8 + data.length) := by
    rcases hfit with h | h <;> omega
  rw [if_neg hguard]
  by_cases hp : 0 < p
  · have hle : 8 + data.length ≤ p := by
      rcases hfit with h | h <;> omega
    simp only [if_pos hp]
    have htake : (u32be bid ++ u32be data.length ++ data).take p =
        u32be bid ++ u32be data.length ++ data := by
      apply List.take_of_length_le
      rw [length_u32be2]
      omega
    rw [htake]
    simp [List.append_assoc]
  · simp only [if_neg hp]
    have htake : (u32be bid ++ u32be data.length ++ data).take (8 + data.length) =
        u32be bid ++ u32be data.length ++ data := by
      apply List.take_of_length_le
      rw [length_u32be2]
    rw [htake]
    simp [List.append_assoc]

/-- C1.  Block framing round-trip: for every block id, data and
`paddedBlockSize` that is 0 (unpadded) or at least `8 + len(data)`,
serialization succeeds, `DeserializeBlockV1` of the result returns a block
with the same id, `size = len(data)` and the same data, and the encoded
length is `paddedBlockSize` in padded mode and `8 + len(data)` in unpadded
mode.  The bounds `bid < 2^32` and `8 + len(data) < 2^32` reflect the
32-bit `id` and `size` fields of the block data model. -/
theorem blocks_block_roundtrip (bid sz : Nat) (data : List Nat) (paddedBlockSize : Nat)
    (pad : Nat → Nat) (hid : bid < W) (hpadW : paddedBlockSize < W)
    (hlen : 8 + data.length < W)
    (hfit : paddedBlockSize = 0 ∨ 8 + data.length ≤ paddedBlockSize) :
    ∃ out, blockV1.Serialize ⟨bid, sz, data⟩ paddedBlockSize pad = Except.ok out ∧
      DeserializeBlockV1 paddedBlockSize out = .ok ⟨bid, data.length, data⟩ ∧
      out.length = if paddedBlockSize = 0 then 8 + data.length else paddedBlockSize := by
  have hW : W = 4294967296 := rfl
  refine ⟨_, blockV1_Serialize_ok bid sz data paddedBlockSize pad hid hlen hfit, ?_, ?_⟩
  · apply DeserializeBlockV1_frame
    · exact hid
    · rcases hfit with h0 | hle
      · subst h0
        simp
        omega
      · have hp : 0 < paddedBlockSize ∨ paddedBlockSize = 0 := by omega
        rcases hp with hp | hp
        · rw [if_pos hp]
          simp
          omega
        · subst hp
          simp
          omega
    · intro hp
      rw [if_pos hp]
      simp
      rcases hfit with h0 | hle
      · omega
      · omega
  · rw [length_u32be2]
    simp only [List.length_append]
    rcases hfit with h0 | hle
    · subst h0
      simp
    · have hp : 0 < paddedBlockSize ∨ paddedBlockSize = 0 := by omega
      rcases hp with hp | hp
      · rw [if_pos hp, if_neg (by omega)]
        simp
        omega
      · subst hp
        simp

theorem blocks_block_roundtrip_witness :
    ∃ out, blockV1.Serialize ⟨3, 3, [1, 2, 3]⟩ 16 (fun _ => 9) = Except.ok out ∧
      DeserializeBlockV1 16 out = .ok ⟨3, 3, [1, 2, 3]⟩ ∧
      ([1, 2, 3] : List Nat).length = 3 ∧
      out.length = if (16 : Nat) = 0 then 8 + 3 else 16 := by
  obtain ⟨out, h1, h2, h3⟩ :=
    blocks_block_roundtrip 3 3 [1, 2, 3] 16 (fun _ => 9) (by decide) (by decide) (by decide)
      (Or.inr (by decide))
  exact ⟨out, h1, h2, rfl, h3⟩

/-- C4.  If `paddedBlockSize > 0` and `8 + len(data) > paddedBlockSize`,
serialization fails with a padding-violation error carrying
`paddedBlockSize`, `blockSize = 8 + len(data)` and
`maxDataSize = paddedBlockSize - 8` (computed, as in Go, in wrapping
`uint32` arithmetic; the third conjunct shows that for `paddedBlockSize ≥ 8`
this is the plain difference).  If `8 + len(data)` equals `paddedBlockSize`
exactly, serialization succeeds. -/
theorem blocks_padding_violation (bid sz : Nat) (data : List Nat) (p : Nat) (pad : Nat → Nat)
    (hid : bid < W) (hp : 0 < p) (hpW : p < W) (hlen : 8 + data.length < W) :
    (p < 8 + data.length →
      blockV1.Serialize ⟨bid, sz, data⟩ p pad =
        Except.error ⟨p, 8 + data.length, (p + (W - 8)) % W⟩)
    ∧ (8 + data.length = p → ∃ out, blockV1.Serialize ⟨bid, sz, data⟩ p pad = Except.ok out)
    ∧ (8 ≤ p → (p + (W - 8)) % W = p - 8) := by
  have hW : W = 4294967296 := rfl
  refine ⟨?_, ?_, ?_⟩
  · intro hviol
    unfold blockV1.Serialize
    simp only [blockHeaderLen_eq, hW]
    rw [hW] at hlen
    have hmodlen : data.length % 4294967296 = data.length := by omega
    rw [hmodlen]
    have hmodtot : (8 + data.length) % 4294967296 = 8 + data.length := by omega
    rw [hmodtot]
    rw [if_pos ⟨hp, hviol⟩]
  · intro heq
    exact ⟨_, blockV1_Serialize_ok bid sz data p pad hid hlen (Or.inr (by omega))⟩
  · intro h8
    rw [hW]
    rw [hW] at hpW
    omega

theorem blocks_padding_violation_witness :
    blockV1.Serialize ⟨0, 0, [1, 2, 3, 4, 5, 6, 7, 8, 9]⟩ 16 (fun _ => 0) =
      Except.error ⟨16, 17, 8⟩ ∧
    (∃ out, blockV1.Serialize ⟨0, 0, [1, 2, 3, 4, 5, 6, 7, 8]⟩ 16 (fun _ => 0) = Except.ok out) := by
  have h1 := blocks_padding_violation 0 0 [1, 2, 3, 4, 5, 6, 7, 8, 9] 16 (fun _ => 0)
    (by decide) (by decide) (by decide) (by decide)
  have h2 := blocks_padding_violation 0 0 [1, 2, 3, 4, 5, 6, 7, 8] 16 (fun _ => 0)
    (by decide) (by decide) (by decide) (by decide)
  refine ⟨?_, h2.2.1 (by decide)⟩
  have h3 := h1.1 (by decide)
  rw [h3]
  have h4 : ((16 : Nat) + (W - 8)) % W = 8 := by decide
  rw [h4]
  rfl

/-- C5.  The `uint32` overflow in the size check of
`blockV1.deserialize`: an 8-byte input whose size field is `2^32 - 8`
passes the wrapped check `b.size+blockHeaderLen > totalSize` (which wraps
to 0) and then panics on the slice `dataBytes[8:0]` instead of returning
an error. -/
theorem blocks_deserialize_overflow_panic :
    DeserializeBlockV1 0 [0, 0, 0, 0, 255, 255, 255, 248] = BlockDeserResult.panic := by
  decide

theorem be32At_u32be_skip4 (n m : Nat) (rest : List Nat) (h : m < W) :
    be32At (u32be n ++ (u32be m ++ rest)) 4 = m := by
  rw [u32be_append, show (4 : Nat) = 0 + 4 from rfl, be32At_shift4]
  exact be32At_u32be m rest h

theorem be32At_u32be_skip8 (n n2 m : Nat) (rest : List Nat) (h : m < W) :
    be32At (u32be n ++ (u32be n2 ++ (u32be m ++ rest))) 8 = m := by
  rw [u32be_append, show (8 : Nat) = 4 + 4 from rfl, be32At_shift4]
  exact be32At_u32be_skip4 n2 m rest h

theorem drop_twelve (a b c : Nat) (rest : List Nat) :
    (u32be a ++ (u32be b ++ (u32be c ++ rest))).drop 12 = rest := rfl

theorem length_u32be3 (a b c : Nat) (rest : List Nat) :
    (u32be a ++ (u32be b ++ (u32be c ++ rest))).length = 12 + rest.length := by
  simp [u32be]
  omega

/-- C6.  Plaintext header round-trip for all four body types: byte-buffer
deserialize of the serialization returns the original header (with
`HdrLen` the uncompressed body length for the gzipped types) and
`parsedBytes` equal to the serialized length.  `gz`/`gunz` stand for the
commodity gzip codec, assumed to round-trip. -/
theorem headers_plain_roundtrip (gz : List Nat → List Nat)
    (gunz : List Nat → Except Unit (List Nat))
    (hgz : ∀ x, gunz (gz x) = Except.ok x) (h : PlainHdrV1)
    (htype : h.HdrType = 1 ∨ h.HdrType = 2 ∨ h.HdrType = 3 ∨ h.HdrType = 4)
    (hver : h.Version < W)
    (hlen : h.HdrLen = h.HdrBody.length)
    (hbody : h.HdrBody.length < W)
    (hstored : 12 + (if IsGzipped h.HdrType then gz h.HdrBody else h.HdrBody).length < W) :
    PlainHdrV1.deserialize gunz (PlainHdrV1.Serialize gz h) =
      .ok (PlainHdrV1.Serialize gz h).length h := by
  have hW : W = 4294967296 := rfl
  obtain ⟨v, t, L, body⟩ := h
  dsimp only at htype hver hlen hbody hstored
  subst hlen
  have htW : t < W := by omega
  have hvmod : v % W = v := Nat.mod_eq_of_lt hver
  have htmod : t % W = t := Nat.mod_eq_of_lt htW
  unfold PlainHdrV1.Serialize
  dsimp only
  rw [hvmod, htmod]
  set stored := if IsGzipped t then gz body else body with hst
  have hslW : stored.length < W := by omega
  have hslmod : stored.length % W = stored.length := Nat.mod_eq_of_lt hslW
  rw [hslmod]
  have hlen12 : (u32be v ++ (u32be t ++ (u32be stored.length ++ stored))).length =
      12 + stored.length := length_u32be3 v t stored.length stored
  unfold PlainHdrV1.deserialize
  rw [hlen12]
  rw [if_neg (by omega)]
  have hv0 : be32At (u32be v ++ (u32be t ++ (u32be stored.length ++ stored))) 0 = v :=
    be32At_u32be v _ hver
  have ht4 : be32At (u32be v ++ (u32be t ++ (u32be stored.length ++ stored))) 4 = t :=
    be32At_u32be_skip4 v t _ htW
  have hL8 : be32At (u32be v ++ (u32be t ++ (u32be stored.length ++ stored))) 8 =
      stored.length := be32At_u32be_skip8 v t stored.length stored hslW
  rw [hv0, ht4, hL8]
  have hm1 : (12 + stored.length) % W = 12 + stored.length := by
    rw [hW]
    rw [hW] at hstored
    omega
  rw [hm1]
  rw [if_neg (by omega), if_neg (by omega)]
  have htake : stored.take (12 + stored.length - 12) = stored := by
    rw [show 12 + stored.length - 12 = stored.length by omega]
    exact List.take_length stored
  simp only [drop_twelve, hm1, htake]
  by_cases hg : IsGzipped t
  · simp only [if_pos hg]
    rw [hst]
    simp only [if_pos hg]
    simp only [hgz body, Nat.mod_eq_of_lt hbody]
  · simp only [if_neg hg]
    rw [hst]
    simp only [if_neg hg]

theorem headers_plain_roundtrip_witness :
    PlainHdrV1.deserialize Except.ok
        (PlainHdrV1.Serialize (fun x => x) ⟨1, 2, 2, [5, 6]⟩) =
      .ok (PlainHdrV1.Serialize (fun x => x) ⟨1, 2, 2, [5, 6]⟩).length ⟨1, 2, 2, [5, 6]⟩ :=
  headers_plain_roundtrip (fun x => x) Except.ok (fun _ => rfl) ⟨1, 2, 2, [5, 6]⟩
    (Or.inr (Or.inl rfl)) (by decide) rfl (by decide) (by decide)

/-- C7.  The `uint32` overflow in the buffer-length checks of the header
deserializers: a buffer exactly as long as the fixed prefix whose
`hdrLen` field is `2^32 - 12` (plaintext) or `2^32 - 16` (ciphertext)
passes the wrapped length check (which wraps `prefix + hdrLen` to 0) and
then panics on the body slice instead of reporting `complete=false`. -/
theorem headers_deserialize_overflow_panic (gunz : List Nat → Except Unit (List Nat)) :
    PlainHdrV1.deserialize gunz [0, 0, 0, 1, 0, 0, 0, 1, 255, 255, 255, 244] =
      PlainHdrDeserResult.panic ∧
    CipherHdrV1.deserialize gunz
        [0, 0, 0, 1, 112, 11, 65, 51, 0, 0, 0, 1, 255, 255, 255, 240] =
      CipherHdrDeserResult.panic := by
  constructor
  · unfold PlainHdrV1.deserialize
    rw [if_neg (by decide)]
    have h8 : be32At [0, 0, 0, 1, 0, 0, 0, 1, 255, 255, 255, 244] 8 = 4294967284 := by decide
    rw [h8]
    rw [if_neg (by decide), if_pos (by decide)]
  · unfold CipherHdrV1.deserialize
    rw [if_neg (by decide)]
    have hp : be32At [0, 0, 0, 1, 112, 11, 65, 51, 0, 0, 0, 1, 255, 255, 255, 240] 4 =
        CipherHdrV1Prime := by decide
    rw [hp]
    rw [if_neg (by decide)]
    have h12 : be32At [0, 0, 0, 1, 112, 11, 65, 51, 0, 0, 0, 1, 255, 255, 255, 240] 12 =
        4294967280 := by decide
    rw [h12]
    rw [if_neg (by decide), if_pos (by decide)]

/-- C9 counterexample: a store with sequential and positioned read but no
seek capability does not yield a reader: `NewBlockListReaderV1` fails at
construction, contrary to the claim that only a later `Reset` would fail. -/
theorem reader_requires_seeker_counterexample :
    NewBlockListReaderV1 ⟨true, true, false⟩ [0, 0, 0, 1, 0, 0, 0, 16] 0 100 =
      Except.error "The storage must implement io.Seeker" := rfl

/-- C9 (amended).  Reader construction succeeds exactly when the store
supports sequential read and seek, plus positioned read and a positive
`endOffset` when the on-disk header declares padded mode; and `Reset`
never fails on a successfully constructed reader. -/
theorem reader_construction_capabilities (caps : StoreCaps) (stream : List Nat)
    (initOffset endOffset : Nat) (hlen : 8 ≤ stream.length) :
    ((∃ r, NewBlockListReaderV1 caps stream initOffset endOffset = Except.ok r) ↔
      (caps.hasReader = true ∧ caps.hasSeeker = true ∧
        (0 < be32At stream 4 → caps.hasReaderAt = true ∧ 1 ≤ endOffset)))
    ∧ (∀ r, NewBlockListReaderV1 caps stream initOffset endOffset = Except.ok r →
        ∃ r2, blockListV1.Reset r = Except.ok r2) := by
  constructor
  · unfold NewBlockListReaderV1
    by_cases h1 : caps.hasReader
    · rw [if_neg (by simp [h1])]
      by_cases h2 : caps.hasSeeker
      · rw [if_neg (by simp [h2])]
        rw [if_neg (by omega), if_neg (by omega)]
        by_cases h3 : 0 < be32At stream 4
        · by_cases h4 : caps.hasReaderAt
          · rw [if_neg (by simp [h4])]
            by_cases h5 : endOffset < 1
            · rw [if_pos ⟨h3, h5⟩]
              simp [h1, h2, h3, h4]
              omega
            · rw [if_neg (by tauto)]
              simp [h1, h2, h4]
              omega
          · rw [if_pos ⟨h3, by simp [h4]⟩]
            simp [h3, h4]
        · rw [if_neg (by tauto), if_neg (by tauto)]
          simp [h1, h2]
          omega
      · rw [if_pos (by simp [h2])]
        simp [h2]
    · rw [if_pos (by simp [h1])]
      simp [h1]
  · intro r hr
    have hs : r.hasSeeker = caps.hasSeeker ∧ caps.hasSeeker = true := by
      unfold NewBlockListReaderV1 at hr
      by_cases h1 : caps.hasReader
      · rw [if_neg (by simp [h1])] at hr
        by_cases h2 : caps.hasSeeker
        · rw [if_neg (by simp [h2])] at hr
          rw [if_neg (by omega), if_neg (by omega)] at hr
          by_cases h3 : 0 < be32At stream 4 ∧ ¬ caps.hasReaderAt
          · rw [if_pos h3] at hr
            exact absurd hr (by simp)
          · rw [if_neg h3] at hr
            by_cases h4 : 0 < be32At stream 4 ∧ endOffset < 1
            · rw [if_pos h4] at hr
              exact absurd hr (by simp)
            · rw [if_neg h4] at hr
              have := Except.ok.inj hr
              rw [← this]
              exact ⟨rfl, by simp [h2]⟩
        · rw [if_pos (by simp [h2])] at hr
          exact absurd hr (by simp)
      · rw [if_pos (by simp [h1])] at hr
        exact absurd hr (by simp)
    unfold blockListV1.Reset
    rw [hs.1, hs.2]
    exact ⟨_, rfl⟩

theorem reader_construction_capabilities_witness :
    ((∃ r, NewBlockListReaderV1 ⟨true, true, true⟩ [0, 0, 0, 1, 0, 0, 0, 16] 0 100 =
        Except.ok r) ↔
      ((true : Bool) = true ∧ (true : Bool) = true ∧
        (0 < be32At [0, 0, 0, 1, 0, 0, 0, 16] 4 → (true : Bool) = true ∧ 1 ≤ 100)))
    ∧ (∀ r, NewBlockListReaderV1 ⟨true, true, true⟩ [0, 0, 0, 1, 0, 0, 0, 16] 0 100 =
        Except.ok r → ∃ r2, blockListV1.Reset r = Except.ok r2) :=
  reader_construction_capabilities ⟨true, true, true⟩ [0, 0, 0, 1, 0, 0, 0, 16] 0 100
    (by decide)

/-- C8 counterexample: the first block written through
`writeBlock`/`WriteBlock` keeps its caller-supplied id, so a fresh list
whose first write passes a block with id 7 stores id 7, not 0. -/
theorem writer_first_id_counterexample :
    runWrites [WriteOp.block 7] none = [7] ∧ (7 : Nat) ≠ 0 := ⟨rfl, by decide⟩

theorem runWrites_length (ops : List WriteOp) (cur : Option Nat) :
    (runWrites ops cur).length = ops.length := by
  induction ops generalizing cur with
  | nil => rfl
  | cons op ops ih => simp [runWrites, ih]

theorem runWrites_some (ops : List WriteOp) (prev : Nat) (i : Nat) (hi : i < ops.length) :
    (runWrites ops (some prev)).getD i 0 = (prev + 1 + i) % W := by
  have hW : W = 4294967296 := rfl
  induction ops generalizing prev i with
  | nil => simp at hi
  | cons op ops ih =>
    have hop : writeOpId (some prev) op = (prev + 1) % W := by
      cases op <;> rfl
    cases i with
    | zero =>
      simp [runWrites, hop]
    | succ i =>
      simp only [runWrites, hop, List.getD_cons_succ]
      rw [ih ((prev + 1) % W) i (by simpa using hi)]
      rw [hW]
      omega

/-- C8 (amended).  The id chain of the block list writer: every block
after the first gets the predecessor's id plus one (mod `2^32`);
`writeBlockDataBytes`/`WriteBlockData` write id 0 first on a fresh list,
so when the first write goes through the data path the i-th written block
has id `i` (for `i < 2^32`); but a first block passed directly to
`writeBlock`/`WriteBlock` keeps its caller-supplied id. -/
theorem writer_id_chain (ops : List WriteOp) :
    (runWrites ops none).length = ops.length
    ∧ (∀ i, i + 1 < ops.length →
        (runWrites ops none).getD (i + 1) 0 = ((runWrites ops none).getD i 0 + 1) % W)
    ∧ (∀ ops2, ops = WriteOp.dataBytes :: ops2 →
        ∀ i, i < ops.length → i < W → (runWrites ops none).getD i 0 = i)
    ∧ (∀ bid ops2, ops = WriteOp.block bid :: ops2 → (runWrites ops none).getD 0 0 = bid) := by
  have hW : W = 4294967296 := rfl
  refine ⟨runWrites_length ops none, ?_, ?_, ?_⟩
  · intro i hi
    cases ops with
    | nil => simp at hi
    | cons op ops =>
      have hlen : i < ops.length := by simpa using hi
      have hcons : runWrites (op :: ops) none =
          writeOpId none op :: runWrites ops (some (writeOpId none op)) := rfl
      have hgd : ∀ (a : Nat) (l : List Nat) (n : Nat), (a :: l).getD (n + 1) 0 = l.getD n 0 :=
        fun _ _ _ => rfl
      rw [hcons]
      cases i with
      | zero =>
        rw [hgd _ _ 0, List.getD_cons_zero,
          runWrites_some ops (writeOpId none op) 0 hlen]
      | succ i =>
        rw [hgd _ _ (i + 1), hgd _ _ i,
          runWrites_some ops (writeOpId none op) (i + 1) hlen,
          runWrites_some ops (writeOpId none op) i (by omega)]
        rw [hW]
        omega
  · rintro ops2 rfl i hlen hiW
    cases i with
    | zero => rfl
    | succ i =>
      have hcons : runWrites (WriteOp.dataBytes :: ops2) none =
          (0 : Nat) :: runWrites ops2 (some 0) := rfl
      have hgd : ∀ (a : Nat) (l : List Nat) (n : Nat), (a :: l).getD (n + 1) 0 = l.getD n 0 :=
        fun _ _ _ => rfl
      rw [hcons, hgd _ _ i, runWrites_some ops2 0 i (by simpa using hlen)]
      rw [hW] at hiW ⊢
      omega
  · rintro bid ops2 rfl
    rfl

theorem writer_id_chain_witness :
    (runWrites [WriteOp.dataBytes, WriteOp.block 5, WriteOp.dataBytes] none).length = 3
    ∧ (runWrites [WriteOp.dataBytes, WriteOp.block 5, WriteOp.dataBytes] none).getD 2 0 = 2 := by
  have h := writer_id_chain [WriteOp.dataBytes, WriteOp.block 5, WriteOp.dataBytes]
  exact ⟨h.1, h.2.2.1 [WriteOp.block 5, WriteOp.dataBytes] rfl 2 (by decide) (by decide)⟩

/-- C10.  A block with empty data serializes and deserializes fine at the
block-framing layer, but both `ReadNextBlockData` and `ReadBlockDataAt`
reject it with the error "invalid blockData" and return no record. -/
theorem read_empty_block_data_rejected {α : Type} (paddedBlockSize bid : Nat)
    (pad : Nat → Nat) (cur : Option Nat) (deserData : List Nat → Except Unit (α × Nat))
    (hpad : paddedBlockSize = 0 ∨ 8 ≤ paddedBlockSize) (hpadW : paddedBlockSize < W)
    (hid : bid < W) (hcur : idChainOk cur bid = true) :
    ∃ out, blockV1.Serialize ⟨bid, 0, []⟩ paddedBlockSize pad = Except.ok out ∧
      DeserializeBlockV1 paddedBlockSize out = .ok ⟨bid, 0, []⟩ ∧
      ReadNextBlockData paddedBlockSize cur out deserData = .err "invalid blockData" ∧
      (0 < paddedBlockSize →
        ReadBlockDataAt paddedBlockSize bid out deserData = .err "invalid blockData") := by
  have hW : W = 4294967296 := rfl
  obtain ⟨out, hser, hdes, hlen⟩ :=
    blocks_block_roundtrip bid 0 [] paddedBlockSize pad hid hpadW (by simp; omega)
      (by rcases hpad with h | h
          · exact Or.inl h
          · exact Or.inr (by simpa using h))
  refine ⟨out, hser, hdes, ?_, ?_⟩
  · unfold ReadNextBlockData
    rw [hdes]
    dsimp only
    rw [if_neg (by simp [hcur])]
    simp
  · intro hp
    unfold ReadBlockDataAt
    rw [if_neg (by omega)]
    rw [hdes]
    dsimp only
    rw [if_neg (by simp)]
    simp

theorem SearchBinaryRun_succ (c : Nat → Int) (fuel left right : Nat) :
    SearchBinaryRun c (fuel + 1) left right =
      match SearchBinaryStep c left right with
      | Sum.inr res => some (res, 1)
      | Sum.inl (l2, r2) =>
        match SearchBinaryRun c fuel l2 r2 with
        | none => none
        | some (res, reads) => some (res, reads + 1) := rfl

theorem SearchLinearLoop_succ (c : Nat → Int) (i fuel : Nat) :
    SearchLinearLoop c i (fuel + 1) =
      if c i = 1 then some i else SearchLinearLoop c (i + 1) fuel := rfl

theorem contract_unique (c : Nat → Int) (n p : Nat) (hc : ComparatorContract c n p)
    (i : Nat) (hi : i < n) (h : c i = 0 ∨ c i = 1) : i = p := by
  obtain ⟨hpn, hlt, hgt, hcp⟩ := hc
  rcases Nat.lt_trichotomy i p with h1 | h1 | h1
  · have := hlt i h1
    rcases h with h | h <;> omega
  · exact h1
  · have := hgt i h1 hi
    rcases h with h | h <;> omega

theorem contract_above (c : Nat → Int) (n p : Nat) (hc : ComparatorContract c n p)
    (i : Nat) (hi : i < n) (h : 2 ≤ c i) : i < p := by
  obtain ⟨hpn, hlt, hgt, hcp⟩ := hc
  rcases Nat.lt_trichotomy i p with h1 | h1 | h1
  · exact h1
  · subst h1
    rcases hcp with h2 | h2 <;> omega
  · have := hgt i h1 hi
    omega

theorem contract_below (c : Nat → Int) (n p : Nat) (hc : ComparatorContract c n p)
    (i : Nat) (h : c i < 0) : p < i := by
  obtain ⟨hpn, hlt, hgt, hcp⟩ := hc
  rcases Nat.lt_trichotomy i p with h1 | h1 | h1
  · have := hlt i h1
    omega
  · subst h1
    rcases hcp with h2 | h2 <;> omega
  · exact h1

/-- When the loop reaches the state `left = right = p`, it reads block
`p` once and terminates with the hit or with not-found according to
`c p`. -/
theorem SearchBinaryRun_at_p (c : Nat → Int) (n p : Nat) (hc : ComparatorContract c n p)
    (hpW : p < 2147483648) (fuel : Nat) :
    ∃ res, SearchBinaryRun c (fuel + 1) p p = some (res, 1) ∧
      ((res = some p ∧ c p = 1) ∨ (res = none ∧ c p = 0)) := by
  have hW : W = 4294967296 := rfl
  have hmid : sbMid p p = p := by
    unfold sbMid
    rw [hW]
    omega
  rcases hc.2.2.2 with hcp | hcp
  · refine ⟨none, ?_, Or.inr ⟨rfl, hcp⟩⟩
    have hstep : SearchBinaryStep c p p = Sum.inr none := by
      simp only [SearchBinaryStep, hmid]
      rw [if_neg (by omega), if_pos hcp]
    rw [SearchBinaryRun_succ, hstep]
  · refine ⟨some p, ?_, Or.inl ⟨rfl, hcp⟩⟩
    have hstep : SearchBinaryStep c p p = Sum.inr (some p) := by
      simp only [SearchBinaryStep, hmid]
      rw [if_pos hcp]
    rw [SearchBinaryRun_succ, hstep]

/-- Correctness and read bound of the `SearchBinary` loop under the
comparator contract, for lists of at most `2^31` blocks (so that the
`uint32` computation `(left + right) / 2` cannot wrap): starting from any
enclosing interval of width below `2^k`, the loop terminates within
`k + 1` reads and agrees with `c p`. -/
theorem SearchBinaryRun_correct (c : Nat → Int) (n p : Nat)
    (hc : ComparatorContract c n p) (hn : n ≤ 2147483648) :
    ∀ k l r, l ≤ p → p ≤ r → r < n → r - l < 2 ^ k →
      ∃ res reads, SearchBinaryRun c (k + 1) l r = some (res, reads) ∧ reads ≤ k + 1 ∧
        ((res = some p ∧ c p = 1) ∨ (res = none ∧ c p = 0)) := by
  have hW : W = 4294967296 := rfl
  intro k
  induction k with
  | zero =>
    intro l r hlp hpr hrn hsize
    have hsz1 : r - l < 1 := by simpa using hsize
    have hl2 : l = p := by omega
    have hr2 : r = p := by omega
    rw [hl2, hr2]
    obtain ⟨res, hrun, hres⟩ := SearchBinaryRun_at_p c n p hc (by omega) 0
    exact ⟨res, 1, hrun, by omega, hres⟩
  | succ k ih =>
    intro l r hlp hpr hrn hsize
    have hpow : (2 : Nat) ^ (k + 1) = 2 ^ k * 2 := pow_succ 2 k
    have hKpos : 0 < (2 : Nat) ^ k := pow_pos (by norm_num) k
    rw [hpow] at hsize
    by_cases hlr : l = r
    · have hl2 : l = p := by omega
      have hr2 : r = p := by omega
      rw [hl2, hr2]
      obtain ⟨res, hrun, hres⟩ := SearchBinaryRun_at_p c n p hc (by omega) (k + 1)
      exact ⟨res, 1, hrun, by omega, hres⟩
    · have hlr2 : l < r := by omega
      set m := (l + r) / 2 with hm
      have hmid : sbMid l r = m := by
        unfold sbMid
        rw [hW]
        omega
      have hlm : l ≤ m := by omega
      have hmr : m < r := by omega
      have hmn : m < n := by omega
      by_cases h1 : c m = 1
      · have hmp : m = p := contract_unique c n p hc m hmn (Or.inr h1)
        have hstep : SearchBinaryStep c l r = Sum.inr (some m) := by
          simp only [SearchBinaryStep, hmid]
          rw [if_pos h1]
        refine ⟨some m, 1, ?_, by omega, Or.inl ⟨by rw [hmp], by rw [← hmp]; exact h1⟩⟩
        rw [SearchBinaryRun_succ, hstep]
      · by_cases h0 : c m = 0
        · have hmp : m = p := contract_unique c n p hc m hmn (Or.inl h0)
          have hstep : SearchBinaryStep c l r = Sum.inr none := by
            simp only [SearchBinaryStep, hmid]
            rw [if_neg h1, if_pos h0]
          refine ⟨none, 1, ?_, by omega, Or.inr ⟨rfl, by rw [← hmp]; exact h0⟩⟩
          rw [SearchBinaryRun_succ, hstep]
        · by_cases hneg : c m < 0
          · have hpm : p < m := contract_below c n p hc m hneg
            have hstep : SearchBinaryStep c l r = Sum.inl (l, m - 1) := by
              simp only [SearchBinaryStep, hmid]
              rw [if_neg h1, if_neg h0, if_neg hlr, if_pos hneg,
                if_pos (show l < m by omega)]
              have hsub : (m + (W - 1)) % W = m - 1 := by
                rw [hW]
                omega
              rw [hsub]
            obtain ⟨res, reads, hrun, hreads, hres⟩ :=
              ih l (m - 1) hlp (by omega) (by omega) (by omega)
            refine ⟨res, reads + 1, ?_, by omega, hres⟩
            rw [SearchBinaryRun_succ, hstep]
            dsimp only
            rw [hrun]
          · have hcm2 : 2 ≤ c m := by omega
            have hmp : m < p := contract_above c n p hc m hmn hcm2
            have hstep : SearchBinaryStep c l r = Sum.inl (m + 1, r) := by
              simp only [SearchBinaryStep, hmid]
              rw [if_neg h1, if_neg h0, if_neg hlr, if_neg hneg, if_pos hmr]
              have hadd : (m + 1) % W = m + 1 := by
                rw [hW]
                omega
              rw [hadd]
            obtain ⟨res, reads, hrun, hreads, hres⟩ :=
              ih (m + 1) r (by omega) hpr hrn (by omega)
            refine ⟨res, reads + 1, ?_, by omega, hres⟩
            rw [SearchBinaryRun_succ, hstep]
            dsimp only
            rw [hrun]

/-- Past `p` every comparator answer is negative, so the linear scan
finds nothing. -/
theorem SearchLinearLoop_none (c : Nat → Int) (n p : Nat)
    (hgt : ∀ i, p < i → i < n → c i < 0) :
    ∀ fuel i, p < i → i + fuel ≤ n → SearchLinearLoop c i fuel = none := by
  intro fuel
  induction fuel with
  | zero =>
    intro i h1 h2
    rfl
  | succ fuel ih =>
    intro i h1 h2
    rw [SearchLinearLoop_succ]
    rw [if_neg (by have := hgt i h1 (by omega); omega)]
    exact ih (i + 1) (by omega) (by omega)

/-- Under the comparator contract the linear scan returns the record of
block `p` exactly when the value is present there, and not-found
otherwise. -/
theorem SearchLinear_contract (c : Nat → Int) (n p : Nat) (hc : ComparatorContract c n p) :
    SearchLinear c n = if c p = 1 then some p else none := by
  have haux : ∀ fuel i, i ≤ p → i + fuel = n →
      SearchLinearLoop c i fuel = if c p = 1 then some p else none := by
    intro fuel
    induction fuel with
    | zero =>
      intro i h1 h2
      exact absurd hc.1 (by omega)
    | succ fuel ih =>
      intro i h1 h2
      rw [SearchLinearLoop_succ]
      by_cases hip : i = p
      · subst hip
        rcases hc.2.2.2 with hcp | hcp
        · rw [if_neg (by omega), if_neg (by omega)]
          exact SearchLinearLoop_none c n i hc.2.2.1 fuel (i + 1) (by omega) (by omega)
        · rw [if_pos hcp, if_pos hcp]
      · have hilt : i < p := by omega
        have := hc.2.1 i hilt
        rw [if_neg (by omega)]
        exact ih (i + 1) (by omega) (by omega)
  exact haux n 0 (Nat.zero_le p) (by omega)

/-- C2 (amended).  For every sorted padded list with `1 ≤ n ≤ 2^31`
blocks satisfying the comparator contract, `SearchBinary` terminates
within `⌈log₂ n⌉ + 1` block reads and returns exactly what
`SearchLinear` returns: the record of block `p` if the value is present,
not-found otherwise. -/
theorem search_binary_linear_agree (c : Nat → Int) (n p : Nat)
    (hc : ComparatorContract c n p) (hn1 : 1 ≤ n) (hn : n ≤ 2 ^ 31) :
    ∃ reads, SearchBinary c n (Nat.clog 2 n + 1) = some (SearchLinear c n, reads) ∧
      reads ≤ Nat.clog 2 n + 1 := by
  have hW : W = 4294967296 := rfl
  have hn2 : n ≤ 2147483648 := by
    have h31 : (2 : Nat) ^ 31 = 2147483648 := by norm_num
    omega
  have hpn : p < n := hc.1
  have hle : n ≤ 2 ^ Nat.clog 2 n := Nat.le_pow_clog (by norm_num) n
  obtain ⟨res, reads, hrun, hreads, hres⟩ :=
    SearchBinaryRun_correct c n p hc hn2 (Nat.clog 2 n) 0 (n - 1)
      (Nat.zero_le p) (by omega) (by omega) (by omega)
  have hinit : SearchBinaryInitRight n = n - 1 := by
    unfold SearchBinaryInitRight
    rw [hW]
    omega
  refine ⟨reads, ?_, hreads⟩
  unfold SearchBinary
  rw [hinit, hrun]
  have hlin : SearchLinear c n = res := by
    rw [SearchLinear_contract c n p hc]
    rcases hres with ⟨h1, h2⟩ | ⟨h1, h2⟩
    · rw [if_pos h2, h1]
    · rw [if_neg (by omega), h1]
  rw [hlin]

theorem search_binary_linear_agree_witness :
    ∃ reads, SearchBinary demoCmp 3 (Nat.clog 2 3 + 1) =
        some (SearchLinear demoCmp 3, reads) ∧
      reads ≤ Nat.clog 2 3 + 1 :=
  search_binary_linear_agree demoCmp 3 1
    ⟨by norm_num, fun i hi => by interval_cases i; decide,
      fun i h1 h2 => by interval_cases i; decide, Or.inr (by decide)⟩
    (by norm_num) (by norm_num)

/-- C2 counterexample: on a sorted padded list of `n = 3221225472` blocks
(contract satisfied, value present in the last block, so `SearchLinear`
would return it), `⌈log₂ n⌉ + 1 = 33`, yet `SearchBinary` is still
running after 33 block reads — `left + right` exceeds `2^32` and the
wrapped mid throws the search into a cycle, so it never terminates. -/
theorem search_binary_wrap_counterexample :
    ComparatorContract bigCmp 3221225472 3221225471
    ∧ Nat.clog 2 3221225472 + 1 = 33
    ∧ SearchBinary bigCmp 3221225472 33 = none := by
  refine ⟨⟨by norm_num, ?_, ?_, Or.inr (by decide)⟩, ?_, by decide⟩
  · intro i hi
    unfold bigCmp
    rw [if_neg (by omega)]
  · intro i h1 h2
    omega
  · have h1 : Nat.clog 2 3221225472 ≤ 32 := by
      rw [← Nat.le_pow_iff_clog_le (by norm_num)]
      norm_num
    have h2 : 31 < Nat.clog 2 3221225472 := by
      rw [← Nat.pow_lt_iff_lt_clog (by norm_num)]
      norm_num
    omega

/-- C3 counterexample: on a padded list of `n = 3221225472` blocks the
loop does not follow the claimed steps.  The search starts from
`left = 0`, `right = n - 1`; the first iteration (comparator answers
`> 1`) moves to the reachable state `(1610612736, 3221225471)`, where
`left + right` exceeds `2^32`: the code computes the wrapped
`mid = ((left + right) mod 2^32) / 2 = 268435455` and moves `left` to
`268435456`, while the claim's rule `mid = (left + right) / 2`
prescribes `mid = 2415919103` and `left = 2415919104` — the two
transitions differ. -/
theorem search_binary_step_wrap_counterexample :
    SearchBinaryInitRight 3221225472 = 3221225471
    ∧ SearchBinaryStep bigCmp 0 3221225471 = Sum.inl (1610612736, 3221225471)
    ∧ SearchBinaryStep bigCmp 1610612736 3221225471 = Sum.inl (268435456, 3221225471)
    ∧ SearchBinarySpecStep bigCmp 1610612736 3221225471 = Sum.inl (2415919104, 3221225471)
    ∧ SearchBinaryStep bigCmp 1610612736 3221225471 ≠
        SearchBinarySpecStep bigCmp 1610612736 3221225471 := by
  refine ⟨by decide, by decide, by decide, by decide, by decide⟩

/-- C3 (amended).  On every reachable state of a padded list with at
most `2^31` blocks (`left ≤ right < 2^31`, so the `uint32` arithmetic
does not wrap) the loop body of `blockListV1.SearchBinary` takes exactly
the transition described by the specification, and the loop starts from
`left = 0`, `right = totalBlocks - 1`.  For larger lists the wrapped
`uint32` mid departs from the claimed steps. -/
theorem search_binary_step_spec (c : Nat → Int) (l r n : Nat)
    (hlr : l ≤ r) (hr : r < 2147483648) (hn1 : 1 ≤ n) (hnW : n ≤ W) :
    SearchBinaryStep c l r = SearchBinarySpecStep c l r
    ∧ SearchBinaryInitRight n = n - 1 := by
  have hW : W = 4294967296 := rfl
  constructor
  · have hsum : (l + r) % W = l + r := by
      rw [hW]
      omega
    have hmid : sbMid l r = (l + r) / 2 := by
      unfold sbMid
      rw [hsum]
    set m := (l + r) / 2 with hm
    have hlm : l ≤ m := by omega
    have hmr : m ≤ r := by omega
    unfold SearchBinaryStep SearchBinarySpecStep
    rw [hmid]
    dsimp only
    by_cases h1 : c m = 1
    · rw [if_pos h1, if_pos h1]
    · rw [if_neg h1, if_neg h1]
      by_cases h0 : c m = 0
      · rw [if_pos h0, if_pos h0]
      · rw [if_neg h0, if_neg h0]
        by_cases heq : l = r
        · rw [if_pos heq, if_pos heq]
        · rw [if_neg heq, if_neg heq]
          by_cases hneg : c m < 0
          · rw [if_pos hneg, if_pos hneg]
            have harg : (if l < m then (m + (W - 1)) % W else l) =
                (if m = l then l else m - 1) := by
              by_cases hml : l < m
              · rw [if_pos hml, if_neg (by omega)]
                rw [hW]
                omega
              · rw [if_neg hml, if_pos (by omega)]
            rw [harg]
          · rw [if_neg hneg, if_neg hneg]
            have harg : (if m < r then (m + 1) % W else r) =
                (if m = r then r else m + 1) := by
              by_cases hmr2 : m < r
              · rw [if_pos hmr2, if_neg (by omega)]
                rw [hW]
                omega
              · rw [if_neg hmr2, if_pos (by omega)]
            rw [harg]
  · unfold SearchBinaryInitRight
    rw [hW]
    rw [hW] at hnW
    omega

theorem search_binary_step_spec_witness :
    SearchBinaryStep demoCmp 0 2 = SearchBinarySpecStep demoCmp 0 2
    ∧ SearchBinaryInitRight 3 = 3 - 1 :=
  search_binary_step_spec demoCmp 0 2 3 (by norm_num) (by norm_num) (by norm_num)
    (by decide)

theorem read_empty_block_data_rejected_witness :
    ∃ out, blockV1.Serialize ⟨0, 0, []⟩ 16 (fun _ => 3) = Except.ok out ∧
      DeserializeBlockV1 16 out = .ok ⟨0, 0, []⟩ ∧
      ReadNextBlockData 16 none out (fun _ => Except.error ()) =
        ReadDataResult.err (α := Unit) "invalid blockData" ∧
      (0 < 16 →
        ReadBlockDataAt 16 0 out (fun _ => Except.error ()) =
          ReadDataResult.err (α := Unit) "invalid blockData") :=
  read_empty_block_data_rejected 16 0 (fun _ => 3) none (fun _ => Except.error ())
    (Or.inr (by decide)) (by decide) (by decide) rfl

end StrongSalt
